import Mathlib

/-
  Verification of the core of the openfaas-cloud continuous-delivery pipeline.

  The development shallowly embeds the two central Go components:

  * `buildshiprun/handler.go` — the build-deploy orchestrator (`Handle`,
    `getEvent`, `functionExists`, `deployFunction`, `reportStatus`,
    `buildPublicStatusURL`, `getImageName`, `validImage`);
  * `of-builder/main.go` — the build service (`buildHandler`, `build`,
    `buildLog.Append`).

  Pure Go functions become Lean functions; effectful code becomes explicit
  state passing over environments that carry the outcomes of the external
  collaborators (HTTP calls, JSON parses, the build engine), and every
  function additionally returns the ordered trace of observable effects it
  performs.  Machine integers are modelled as `Int`/`Nat`; fallible steps
  return `Except`/`Option`.
-/

namespace OFC

/-! ## Character classes of the image validator regular expression

`buildshiprun/handler.go` line 28:

  imageValidator = regexp.MustCompile(
    "(?:[a-zA-Z0-9]+(?:[._-][a-z0-9]+)*(?::[0-9]+)?/[a-zA-Z0-9]+(?:[._-][a-z0-9]+)*/)*[a-zA-Z0-9]+(?:[._-][a-z0-9]+)*")

The regex is built from one component shape
`K = [a-zA-Z0-9]+([._-][a-z0-9]+)*`, an optional port `:[0-9]+`, and the
overall shape `(K port? / K /)* K`. -/

/-- `[a-zA-Z0-9]`. -/
def isAlnumGo (c : Char) : Bool :=
  ('a' ≤ c && c ≤ 'z') || ('A' ≤ c && c ≤ 'Z') || ('0' ≤ c && c ≤ '9')

/-- `[a-z0-9]`. -/
def isLower09 (c : Char) : Bool :=
  ('a' ≤ c && c ≤ 'z') || ('0' ≤ c && c ≤ '9')

/-- `[0-9]`. -/
def isDigitGo (c : Char) : Bool := '0' ≤ c && c ≤ '9'

/-- `[._-]`. -/
def isSepGo (c : Char) : Bool := c = '.' || c = '_' || c = '-'

/-! ## The Go regexp engine, specialised to `imageValidator`

Go's `regexp` package implements leftmost-first (Perl-style preference)
matching.  For this particular pattern the preference order collapses to
plain greedy scanning, because every quantified sub-pattern is followed
either by a character its own character class excludes (`/`, `:`) or by the
end of the match, so no backtracking into a quantifier can ever turn a
failure into a success:

* inside a component, `[a-zA-Z0-9]+` and each `[a-z0-9]+` run is delimited
  by `/`, `:`, `[._-]` or the match end, none of which the run could have
  consumed, so only the maximal run can be followed by the rest;
* the optional port `(?::[0-9]+)?` is followed by `/`; if the greedy port
  fails to reach a `/`, the portless alternative starts at `:` and fails as
  well;
* an iteration of the outer group either consumes exactly two slash-
  terminated components (deterministically) or fails.

The only genuine backtracking point is the outer `(?:...)*`: when the final
component `K` fails after the maximal number of group iterations, the engine
gives back one iteration and matches `K` on the text of that iteration's
first component (which always succeeds, since that component begins with an
alphanumeric character).  `matchAtF` below implements exactly this scheme.

All recursions are fuelled (fuel bounded by the text length) so that every
definition reduces inside the kernel. -/

/-- Greedy matcher for `(?:[._-][a-z0-9]+)*`: returns the consumed prefix
and the rest.  Mirrors the chunk sub-pattern of every component. -/
def takeKChunksF : Nat → List Char → List Char × List Char
  | 0, l => ([], l)
  | _ + 1, [] => ([], [])
  | fuel + 1, c :: rest =>
    if isSepGo c then
      let r := rest.takeWhile isLower09
      if r.isEmpty then ([], c :: rest)
      else
        let p := takeKChunksF fuel (rest.dropWhile isLower09)
        (c :: (r ++ p.1), p.2)
    else ([], c :: rest)

/-- `(?:[._-][a-z0-9]+)*`, fuelled with the text length. -/
def takeKChunks (l : List Char) : List Char × List Char :=
  takeKChunksF l.length l

/-- Greedy matcher for one component `[a-zA-Z0-9]+(?:[._-][a-z0-9]+)*`
(`none` when the text does not start with an alphanumeric character). -/
def takeComp (l : List Char) : Option (List Char × List Char) :=
  let a := l.takeWhile isAlnumGo
  if a.isEmpty then none
  else
    let p := takeKChunks (l.dropWhile isAlnumGo)
    some (a ++ p.1, p.2)

/-- Greedy matcher for the optional port `(?::[0-9]+)?`: consumes `:digits`
when present, otherwise consumes nothing. -/
def takePort (l : List Char) : List Char × List Char :=
  match l with
  | c :: rest =>
    if c = ':' then
      let d := rest.takeWhile isDigitGo
      if d.isEmpty then ([], c :: rest)
      else (c :: d, rest.dropWhile isDigitGo)
    else ([], c :: rest)
  | [] => ([], [])

/-- One iteration of the outer group
`[a-zA-Z0-9]+(?:[._-][a-z0-9]+)*(?::[0-9]+)?/[a-zA-Z0-9]+(?:[._-][a-z0-9]+)*/`. -/
def takeIter (l : List Char) : Option (List Char × List Char) :=
  match takeComp l with
  | none => none
  | some (a, r1) =>
    let pr := takePort r1
    match pr.2 with
    | c2 :: r3 =>
      if c2 = '/' then
        match takeComp r3 with
        | none => none
        | some (b, r4) =>
          match r4 with
          | c4 :: r5 =>
            if c4 = '/' then some (a ++ pr.1 ++ c2 :: (b ++ [c4]), r5) else none
          | [] => none
      else none
    | [] => none

/-- The leftmost-first match of the whole pattern at the current position:
as many group iterations as possible, then the final component, giving back
one iteration when the final component has no text left to match. -/
def matchAtF : Nat → List Char → Option (List Char)
  | 0, l => (takeComp l).map Prod.fst
  | fuel + 1, l =>
    match takeIter l with
    | some (g, r) =>
      match matchAtF fuel r with
      | some m => some (g ++ m)
      | none => (takeComp l).map Prod.fst
    | none => (takeComp l).map Prod.fst

/-- Leftmost-first match at one position, fuelled with the text length. -/
def matchAt (l : List Char) : Option (List Char) :=
  matchAtF l.length l

/-- `regexp.FindString`: the text of the leftmost match, the empty string
when there is no match anywhere. -/
def findString (l : List Char) : List Char :=
  match l with
  | [] => []
  | c :: rest =>
    match matchAt (c :: rest) with
    | some m => m
    | none => findString rest

/-- `validImage` (`buildshiprun/handler.go` lines 366–373):

  match := imageValidator.FindString(image)
  if len(match) == len(image) { return true }
  return false
-/
def validImage (image : String) : Bool :=
  (findString image.data).length == image.data.length

/-! ## The language of `imageValidator`, as a grammar

Nondeterministic membership predicates, read off the same regex text.  A
full-length match of the validator's pattern is membership of the whole
string in `FullImageMatch`. -/

/-- Language of `(?:[._-][a-z0-9]+)*`. -/
inductive KChunks : List Char → Prop
  | nil : KChunks []
  | cons (c : Char) (r rest : List Char) :
      isSepGo c = true → r ≠ [] → (∀ x ∈ r, isLower09 x = true) →
      KChunks rest → KChunks (c :: (r ++ rest))

/-- Language of one component `[a-zA-Z0-9]+(?:[._-][a-z0-9]+)*`. -/
def KLang (l : List Char) : Prop :=
  ∃ a rest, a ≠ [] ∧ (∀ c ∈ a, isAlnumGo c = true) ∧ KChunks rest ∧ l = a ++ rest

/-- Language of the optional port `(?::[0-9]+)?`. -/
def PortLang (l : List Char) : Prop :=
  l = [] ∨ ∃ d, d ≠ [] ∧ (∀ c ∈ d, isDigitGo c = true) ∧ l = ':' :: d

/-- Language of one outer-group iteration `comp port? / comp /`. -/
def IterLang (l : List Char) : Prop :=
  ∃ a p b, KLang a ∧ PortLang p ∧ KLang b ∧ l = a ++ p ++ '/' :: (b ++ ['/'])

/-- Language of `(?:comp port? / comp /)*`. -/
inductive StarIter : List Char → Prop
  | nil : StarIter []
  | cons (g rest : List Char) : IterLang g → StarIter rest → StarIter (g ++ rest)

/-- Membership of the whole string in the language of `imageValidator`:
some group iterations followed by one final component. -/
def FullImageMatch (l : List Char) : Prop :=
  ∃ g c, StarIter g ∧ KLang c ∧ l = g ++ c

/-! ## The canonical reference grammar of the specification

The spec describes the accepted shape as the "canonical
`registry[/namespace...]/name[:tag]` grammar".  The next definitions follow
those words (not the code): a registry component, zero or more namespace
components, a name, and an optional tag, each a nonempty word over letters,
digits and `[._-]`.  They exist only to compare the spec's grammar with the
code's validator. -/

/-- Split a character list at every occurrence of `sep` (the pieces do not
contain `sep`; n separators yield n+1 pieces). -/
def splitOnChar (sep : Char) : List Char → List (List Char)
  | [] => [[]]
  | c :: rest =>
    let ps := splitOnChar sep rest
    if c = sep then [] :: ps
    else
      match ps with
      | [] => [[c]]
      | h :: t => (c :: h) :: t

/-- Modelled from the spec: one nonempty path component of the canonical
reference grammar. -/
def isRefWord (l : List Char) : Bool :=
  !l.isEmpty && l.all (fun c => isAlnumGo c || isSepGo c)

/-- Modelled from the spec: the final `name[:tag]` component. -/
def nameTag (t : List Char) : Bool :=
  match splitOnChar ':' t with
  | [n] => isRefWord n
  | [n, tag] => isRefWord n && isRefWord tag
  | _ => false

/-- Modelled from the spec: full-string membership in the canonical
`registry[/namespace...]/name[:tag]` grammar. -/
def canonicalRefGrammar (s : String) : Bool :=
  let parts := splitOnChar '/' s.data
  decide (2 ≤ parts.length) &&
    parts.dropLast.all isRefWord &&
    (match parts.getLast? with
     | some t => nameTag t
     | none => false)

/-! ## List helpers -/

theorem dropWhileLenLe {α : Type} (p : α → Bool) :
    ∀ l : List α, (List.dropWhile p l).length ≤ l.length := by
  intro l
  induction l with
  | nil => simp [List.dropWhile]
  | cons a t ih =>
    by_cases h : p a
    · simpa [List.dropWhile, h] using Nat.le_succ_of_le ih
    · simp [List.dropWhile, h]

theorem dropWhileHeadFalse {α : Type} (p : α → Bool) :
    ∀ (l : List α) (h : α), (List.dropWhile p l).head? = some h → p h = false := by
  intro l
  induction l with
  | nil => intro h hh; simp [List.dropWhile] at hh
  | cons a t ih =>
    intro h hh
    by_cases ha : p a
    · exact ih h (by simpa [List.dropWhile, ha] using hh)
    · simp [List.dropWhile, ha] at hh
      subst hh
      simpa using ha

theorem memTakeWhile {α : Type} (p : α → Bool) :
    ∀ (l : List α) (a : α), a ∈ List.takeWhile p l → p a = true := by
  intro l
  induction l with
  | nil => intro a ha; simp [List.takeWhile] at ha
  | cons x t ih =>
    intro a ha
    by_cases hx : p x
    · simp [List.takeWhile, hx] at ha
      rcases ha with ha | ha
      · simpa [ha] using hx
      · exact ih a ha
    · simp [List.takeWhile, hx] at ha

/-- A run of `p`-characters followed by a non-`p` head splits off exactly
under `takeWhile`/`dropWhile`. -/
theorem takeWhileSplit {α : Type} {p : α → Bool} :
    ∀ {a r : List α}, (∀ c ∈ a, p c = true) →
      (∀ h, r.head? = some h → p h = false) →
      (a ++ r).takeWhile p = a ∧ (a ++ r).dropWhile p = r := by
  intro a
  induction a with
  | nil =>
    intro r _ hr
    match r with
    | [] => simp
    | h :: t =>
      have := hr h rfl
      simp [List.takeWhile, List.dropWhile, this]
  | cons x a' ih =>
    intro r ha hr
    have hx : p x = true := ha x (by simp)
    have := ih (fun c hc => ha c (by simp [hc])) hr
    simp [List.takeWhile, List.dropWhile, hx, this.1, this.2]

/-! ## Character-class facts -/

/-- Characters at which every quantified sub-pattern of the validator's
regex must stop: the separators of the reference shape. -/
def isStopChar (c : Char) : Bool := c = ':' || c = '/'

theorem sepNotAlnum {c : Char} (h : isSepGo c = true) : isAlnumGo c = false := by
  simp [isSepGo] at h
  rcases h with (h | h) | h <;> subst h <;> decide

theorem sepNotLower09 {c : Char} (h : isSepGo c = true) : isLower09 c = false := by
  simp [isSepGo] at h
  rcases h with (h | h) | h <;> subst h <;> decide

theorem stopNotAlnum {c : Char} (h : isStopChar c = true) : isAlnumGo c = false := by
  simp [isStopChar] at h
  rcases h with h | h <;> subst h <;> decide

theorem stopNotSep {c : Char} (h : isStopChar c = true) : isSepGo c = false := by
  simp [isStopChar] at h
  rcases h with h | h <;> subst h <;> decide

theorem stopNotLower09 {c : Char} (h : isStopChar c = true) : isLower09 c = false := by
  simp [isStopChar] at h
  rcases h with h | h <;> subst h <;> decide

theorem alnumNotSep {c : Char} (h : isAlnumGo c = true) : isSepGo c = false := by
  by_contra hc
  have := sepNotAlnum (c := c) (by revert hc; cases isSepGo c <;> simp)
  simp [this] at h

theorem lower09Alnum {c : Char} (h : isLower09 c = true) : isAlnumGo c = true := by
  simp [isLower09] at h
  simp [isAlnumGo]
  tauto

/-! ## Soundness of the greedy matcher: whatever it consumes is in the
corresponding language, and consumed ++ rest reassembles the input -/

theorem takeKChunksF_spec :
    ∀ (fuel : Nat) (l : List Char), l.length ≤ fuel →
      l = (takeKChunksF fuel l).1 ++ (takeKChunksF fuel l).2 ∧
        KChunks (takeKChunksF fuel l).1 := by
  intro fuel
  induction fuel with
  | zero =>
    intro l _
    exact ⟨by simp [takeKChunksF], by simp [takeKChunksF]; exact KChunks.nil⟩
  | succ f ih =>
    intro l hl
    match l with
    | [] => exact ⟨by simp [takeKChunksF], by simp [takeKChunksF]; exact KChunks.nil⟩
    | c :: rest =>
      by_cases hc : isSepGo c
      · by_cases hr : (rest.takeWhile isLower09).isEmpty
        · refine ⟨by simp [takeKChunksF, hc, hr], ?_⟩
          simp [takeKChunksF, hc, hr]
          exact KChunks.nil
        · have hlen : (rest.dropWhile isLower09).length ≤ f := by
            have h1 := dropWhileLenLe isLower09 rest
            have h2 : rest.length ≤ f := by simpa using Nat.le_of_succ_le_succ hl
            omega
          have hrec := ih (rest.dropWhile isLower09) hlen
          constructor
          · simp only [takeKChunksF, hc, if_true, hr, if_false]
            have hsplit : rest.takeWhile isLower09 ++ rest.dropWhile isLower09 = rest :=
              List.takeWhile_append_dropWhile isLower09 rest
            calc c :: rest
                = c :: (rest.takeWhile isLower09 ++ rest.dropWhile isLower09) := by
                  rw [hsplit]
              _ = c :: (rest.takeWhile isLower09 ++
                    ((takeKChunksF f (rest.dropWhile isLower09)).1 ++
                     (takeKChunksF f (rest.dropWhile isLower09)).2)) := by
                  rw [← hrec.1]
              _ = (c :: (rest.takeWhile isLower09 ++
                    (takeKChunksF f (rest.dropWhile isLower09)).1)) ++
                     (takeKChunksF f (rest.dropWhile isLower09)).2 := by
                  simp
          · simp only [takeKChunksF, hc, if_true, hr, if_false]
            exact KChunks.cons c _ _ hc (by simpa [List.isEmpty_iff] using hr)
              (fun x hx => memTakeWhile isLower09 rest x hx) hrec.2
      · exact ⟨by simp [takeKChunksF, hc], by simp [takeKChunksF, hc]; exact KChunks.nil⟩

theorem takeKChunks_spec (l : List Char) :
    l = (takeKChunks l).1 ++ (takeKChunks l).2 ∧ KChunks (takeKChunks l).1 :=
  takeKChunksF_spec l.length l le_rfl

theorem takeComp_spec {l m r : List Char} (h : takeComp l = some (m, r)) :
    l = m ++ r ∧ KLang m := by
  have ha : ¬(l.takeWhile isAlnumGo).isEmpty = true := by
    intro hcon
    simp [takeComp, hcon] at h
  have hdef : takeComp l =
      some (l.takeWhile isAlnumGo ++ (takeKChunks (l.dropWhile isAlnumGo)).1,
        (takeKChunks (l.dropWhile isAlnumGo)).2) := by
    simp [takeComp, ha]
  rw [hdef] at h
  simp only [Option.some.injEq, Prod.mk.injEq] at h
  obtain ⟨h1, h2⟩ := h
  subst h1
  subst h2
  have hsp := takeKChunks_spec (l.dropWhile isAlnumGo)
  constructor
  · calc l = l.takeWhile isAlnumGo ++ l.dropWhile isAlnumGo :=
          (List.takeWhile_append_dropWhile isAlnumGo l).symm
      _ = l.takeWhile isAlnumGo ++
            ((takeKChunks (l.dropWhile isAlnumGo)).1 ++
             (takeKChunks (l.dropWhile isAlnumGo)).2) := by rw [← hsp.1]
      _ = l.takeWhile isAlnumGo ++ (takeKChunks (l.dropWhile isAlnumGo)).1 ++
            (takeKChunks (l.dropWhile isAlnumGo)).2 := by simp
  · exact ⟨l.takeWhile isAlnumGo, (takeKChunks (l.dropWhile isAlnumGo)).1,
      by simpa [List.isEmpty_iff] using ha,
      fun c hc => memTakeWhile isAlnumGo l c hc, hsp.2, rfl⟩

theorem takeComp_ne {l m r : List Char} (h : takeComp l = some (m, r)) : m ≠ [] := by
  obtain ⟨a, rest, hne, -, -, hm⟩ := (takeComp_spec h).2
  subst hm
  intro hcon
  exact hne (List.append_eq_nil.mp hcon).1

theorem takePort_spec (l : List Char) :
    l = (takePort l).1 ++ (takePort l).2 ∧ PortLang (takePort l).1 := by
  match l with
  | [] => simp [takePort, PortLang]
  | c :: rest =>
    by_cases hc : c = ':'
    · subst hc
      by_cases hd : (rest.takeWhile isDigitGo).isEmpty
      · simp [takePort, hd, PortLang]
      · constructor
        · simp [takePort, hd, List.takeWhile_append_dropWhile]
        · refine Or.inr ⟨rest.takeWhile isDigitGo,
            by simpa [List.isEmpty_iff] using hd,
            fun x hx => memTakeWhile _ _ _ hx, ?_⟩
          simp [takePort, hd]
    · simp [takePort, hc, PortLang]

theorem takeIter_spec {l g r : List Char} (h : takeIter l = some (g, r)) :
    l = g ++ r ∧ IterLang g ∧ g ≠ [] := by
  cases hA : takeComp l with
  | none => simp [takeIter, hA] at h
  | some ar =>
    obtain ⟨a, r1⟩ := ar
    have hAs := takeComp_spec hA
    have hP := takePort_spec r1
    cases hr2 : (takePort r1).2 with
    | nil => simp [takeIter, hA, hr2] at h
    | cons c2 r3 =>
      by_cases hc2 : c2 = '/'
      · subst hc2
        cases hB : takeComp r3 with
        | none => simp [takeIter, hA, hr2, hB] at h
        | some br =>
          obtain ⟨b, r4⟩ := br
          have hBs := takeComp_spec hB
          match hr4 : r4 with
          | [] => simp [takeIter, hA, hr2, hB] at h
          | c4 :: r5 =>
            by_cases hc4 : c4 = '/'
            · subst hc4
              have hg : g = a ++ (takePort r1).1 ++ '/' :: (b ++ ['/']) ∧ r = r5 := by
                have := h
                simp only [takeIter, hA, hr2, hB, if_true, Option.some.injEq,
                  Prod.mk.injEq] at this
                exact ⟨this.1.symm, this.2.symm⟩
              obtain ⟨hg, hr⟩ := hg
              subst hg
              subst hr
              refine ⟨?_, ⟨a, (takePort r1).1, b, hAs.2, hP.2, hBs.2, rfl⟩, ?_⟩
              · calc l = a ++ r1 := hAs.1
                  _ = a ++ ((takePort r1).1 ++ (takePort r1).2) := by rw [← hP.1]
                  _ = a ++ ((takePort r1).1 ++ ('/' :: r3)) := by rw [hr2]
                  _ = a ++ ((takePort r1).1 ++ ('/' :: (b ++ '/' :: r))) := by
                      rw [hBs.1]
                  _ = a ++ (takePort r1).1 ++ '/' :: (b ++ ['/']) ++ r := by simp
              · intro hcon
                have ha := takeComp_ne hA
                exact ha (List.append_eq_nil.mp (List.append_eq_nil.mp hcon).1).1
            · simp [takeIter, hA, hr2, hB, hc4] at h
      · simp [takeIter, hA, hr2, hc2] at h

/-- The final-component branch shared by all `matchAtF` cases. -/
theorem compBranch_spec {l m : List Char}
    (h : (takeComp l).map Prod.fst = some m) :
    (∃ r, l = m ++ r) ∧ FullImageMatch m := by
  cases hA : takeComp l with
  | none => simp [hA] at h
  | some mr =>
    obtain ⟨m', r⟩ := mr
    simp only [hA, Option.map_some', Option.some.injEq] at h
    subst h
    have hs := takeComp_spec hA
    exact ⟨⟨r, hs.1⟩, ⟨[], m', StarIter.nil, hs.2, by simp⟩⟩

theorem matchAtF_spec :
    ∀ (fuel : Nat) (l m : List Char), matchAtF fuel l = some m →
      (∃ r, l = m ++ r) ∧ FullImageMatch m := by
  intro fuel
  induction fuel with
  | zero =>
    intro l m h
    exact compBranch_spec (by simpa [matchAtF] using h)
  | succ f ih =>
    intro l m h
    cases hI : takeIter l with
    | none => exact compBranch_spec (by simpa [matchAtF, hI] using h)
    | some gr =>
      obtain ⟨g, r⟩ := gr
      cases hR : matchAtF f r with
      | none => exact compBranch_spec (by simpa [matchAtF, hI, hR] using h)
      | some m' =>
        have hm : m = g ++ m' := by
          simp [matchAtF, hI, hR] at h
          exact h.symm
        subst hm
        have hIs := takeIter_spec hI
        have hRs := ih r m' hR
        obtain ⟨r', hr'⟩ := hRs.1
        obtain ⟨gs, cc, hstar, hcc, hmm⟩ := hRs.2
        refine ⟨⟨r', ?_⟩, ?_⟩
        · calc l = g ++ r := hIs.1
            _ = g ++ (m' ++ r') := by rw [← hr']
            _ = g ++ m' ++ r' := by simp
        · refine ⟨g ++ gs, cc, StarIter.cons g gs hIs.2.1 hstar, hcc, ?_⟩
          rw [hmm]
          simp

theorem matchAt_spec {l m : List Char} (h : matchAt l = some m) :
    (∃ r, l = m ++ r) ∧ FullImageMatch m :=
  matchAtF_spec l.length l m h

/-! ## `findString` facts -/

theorem findString_len_le : ∀ l : List Char, (findString l).length ≤ l.length := by
  intro l
  induction l with
  | nil => simp [findString]
  | cons c rest ih =>
    cases hM : matchAt (c :: rest) with
    | some m =>
      obtain ⟨⟨r, hr⟩, -⟩ := matchAt_spec hM
      have hfs : findString (c :: rest) = m := by simp [findString, hM]
      have hlen := congrArg List.length hr
      simp at hlen
      rw [hfs]
      simp only [List.length_cons]
      omega
    | none =>
      simp only [findString, hM]
      exact le_trans ih (by simp)

theorem findString_full {l : List Char} (h : (findString l).length = l.length) :
    l = [] ∨ matchAt l = some l := by
  cases l with
  | nil => exact Or.inl rfl
  | cons c rest =>
    right
    cases hM : matchAt (c :: rest) with
    | none =>
      exfalso
      have h1 := findString_len_le rest
      simp [findString, hM] at h
      omega
    | some m =>
      have hm : m.length = rest.length + 1 := by
        have := h
        simp [findString, hM] at this
        simpa using this
      obtain ⟨⟨r, hr⟩, -⟩ := matchAt_spec hM
      have hlen := congrArg List.length hr
      simp at hlen
      have hr0 : r = [] := by
        have : r.length = 0 := by omega
        simpa [List.length_eq_zero] using this
      rw [hr0] at hr
      simp at hr
      exact congrArg some hr.symm

/-! ## Completeness of the greedy matcher: on text that is in the language,
the greedy scan consumes exactly the language decomposition -/

theorem kchunksHead {m : List Char} (hm : KChunks m) :
    ∀ h, m.head? = some h → isSepGo h = true := by
  cases hm with
  | nil => intro h hh; simp at hh
  | cons c r rest hsep _ _ _ =>
    intro h hh
    simp at hh
    rw [← hh]
    exact hsep

theorem takeKChunksF_greedy {m : List Char} (hm : KChunks m) :
    ∀ (r : List Char), (∀ h, r.head? = some h → isStopChar h = true) →
      ∀ fuel, m.length ≤ fuel → takeKChunksF fuel (m ++ r) = (m, r) := by
  induction hm with
  | nil =>
    intro r hr fuel _
    match fuel with
    | 0 => simp [takeKChunksF]
    | f + 1 =>
      match r with
      | [] => simp [takeKChunksF]
      | h :: t =>
        have := stopNotSep (hr h rfl)
        simp [takeKChunksF, this]
  | cons c rc rest hsep hne hlow hrest ih =>
    intro r hr fuel hfuel
    have hne1 : 1 ≤ rc.length := by
      cases rc with
      | nil => exact absurd rfl hne
      | cons x t => simp
    match fuel with
    | 0 => simp at hfuel
    | f + 1 =>
      have hheadfalse : ∀ h, (rest ++ r).head? = some h → isLower09 h = false := by
        intro h hh
        cases hrsh : rest with
        | nil =>
          rw [hrsh] at hh
          simp at hh
          exact stopNotLower09 (hr h hh)
        | cons c' t' =>
          rw [hrsh] at hh
          simp at hh
          rw [← hh]
          exact sepNotLower09 (kchunksHead hrest c' (by rw [hrsh]; rfl))
      have hsplit := takeWhileSplit (p := isLower09) (a := rc) (r := rest ++ r)
        hlow hheadfalse
      have hempty : rc.isEmpty = false := by
        cases rc with
        | nil => exact absurd rfl hne
        | cons x t => rfl
      have hrest_le : rest.length ≤ f := by
        simp [List.length_cons, List.length_append] at hfuel
        omega
      have hassoc : (c :: (rc ++ rest)) ++ r = c :: (rc ++ (rest ++ r)) := by simp
      rw [hassoc]
      simp only [takeKChunksF, hsep, if_true, hsplit.1, hsplit.2, hempty,
        Bool.false_eq_true, if_false, ih r hr f hrest_le]

theorem takeComp_greedy {m : List Char} (hm : KLang m) (r : List Char)
    (hr : ∀ h, r.head? = some h → isStopChar h = true) :
    takeComp (m ++ r) = some (m, r) := by
  obtain ⟨a, rest, hane, haln, hchunks, hmeq⟩ := hm
  subst hmeq
  have hheadfalse : ∀ h, (rest ++ r).head? = some h → isAlnumGo h = false := by
    intro h hh
    cases hrsh : rest with
    | nil =>
      rw [hrsh] at hh
      simp at hh
      exact stopNotAlnum (hr h hh)
    | cons c' t' =>
      rw [hrsh] at hh
      simp at hh
      rw [← hh]
      exact sepNotAlnum (kchunksHead hchunks c' (by rw [hrsh]; rfl))
  have hsplit := takeWhileSplit (p := isAlnumGo) haln hheadfalse
  have hempty : a.isEmpty = false := by
    cases a with
    | nil => exact absurd rfl hane
    | cons x t => rfl
  have hchgreedy : takeKChunks (rest ++ r) = (rest, r) :=
    takeKChunksF_greedy hchunks r hr (rest ++ r).length (by simp)
  have hassoc : (a ++ rest) ++ r = a ++ (rest ++ r) := by simp
  rw [hassoc]
  simp only [takeComp, hsplit.1, hsplit.2, hempty, Bool.false_eq_true, if_false,
    hchgreedy]

theorem takePort_greedy {p : List Char} (hp : PortLang p) (r : List Char)
    (hr : ∀ h, r.head? = some h → h = '/') :
    takePort (p ++ r) = (p, r) := by
  rcases hp with hp | ⟨d, hdne, hdig, hpd⟩
  · subst hp
    simp only [List.nil_append]
    match r with
    | [] => rfl
    | h :: t =>
      have h' := hr h rfl
      subst h'
      simp [takePort]
  · subst hpd
    have hheadfalse : ∀ h, r.head? = some h → isDigitGo h = false := by
      intro h hh
      rw [hr h hh]
      decide
    have hsplit := takeWhileSplit (p := isDigitGo) hdig hheadfalse
    have hempty : d.isEmpty = false := by
      cases d with
      | nil => exact absurd rfl hdne
      | cons x t => rfl
    simp only [List.cons_append, takePort, if_true, hsplit.1, hsplit.2, hempty,
      Bool.false_eq_true, if_false]

theorem takeIter_greedy {g : List Char} (hg : IterLang g) (r : List Char) :
    takeIter (g ++ r) = some (g, r) := by
  obtain ⟨a, p, b, ha, hp, hb, hgeq⟩ := hg
  subst hgeq
  have h1 : ((a ++ p) ++ ('/' :: (b ++ ['/']))) ++ r
      = a ++ (p ++ ('/' :: (b ++ ('/' :: r)))) := by simp
  rw [h1]
  have hstop1 : ∀ h, (p ++ ('/' :: (b ++ ('/' :: r)))).head? = some h →
      isStopChar h = true := by
    intro h hh
    rcases hp with hp0 | ⟨d, -, -, hpd⟩
    · subst hp0
      simp at hh
      rw [← hh]
      decide
    · subst hpd
      simp at hh
      rw [← hh]
      decide
  have hA := takeComp_greedy ha (p ++ ('/' :: (b ++ ('/' :: r)))) hstop1
  have hP : takePort (p ++ ('/' :: (b ++ ('/' :: r))))
      = (p, '/' :: (b ++ ('/' :: r))) :=
    takePort_greedy hp ('/' :: (b ++ ('/' :: r)))
      (by intro h hh; simp at hh; exact hh.symm)
  have hB : takeComp (b ++ ('/' :: r)) = some (b, '/' :: r) :=
    takeComp_greedy hb ('/' :: r) (by intro h hh; simp at hh; rw [← hh]; decide)
  simp only [takeIter, hA, hP, hB, if_true]

theorem iterNe {g : List Char} (hg : IterLang g) : g ≠ [] := by
  obtain ⟨a, p, b, -, -, -, hgeq⟩ := hg
  subst hgeq
  intro hcon
  have := congrArg List.length hcon
  simp [List.length_append] at this

theorem matchAtF_complete {g : List Char} (hg : StarIter g) :
    ∀ (c : List Char), KLang c → ∀ fuel, g.length ≤ fuel →
      matchAtF fuel (g ++ c) = some (g ++ c) := by
  induction hg with
  | nil =>
    intro c hc fuel _
    have hcomp : takeComp c = some (c, []) := by
      simpa using takeComp_greedy hc [] (by intro h hh; simp at hh)
    have hiter : takeIter c = none := by
      simp [takeIter, hcomp, takePort]
    match fuel with
    | 0 => simp [matchAtF, hcomp]
    | f + 1 => simp [matchAtF, hiter, hcomp]
  | cons g1 gs hg1 hgs ih =>
    intro c hc fuel hfuel
    have hne := iterNe hg1
    have h1 : 1 ≤ g1.length := by
      cases g1 with
      | nil => exact absurd rfl hne
      | cons x t => simp
    match fuel with
    | 0 =>
      exfalso
      have hlen : (g1 ++ gs).length = g1.length + gs.length := List.length_append g1 gs
      omega
    | f + 1 =>
      have hassoc : (g1 ++ gs) ++ c = g1 ++ (gs ++ c) := by simp
      rw [hassoc]
      have hiter := takeIter_greedy hg1 (gs ++ c)
      have hrec := ih c hc f (by
        have hlen : (g1 ++ gs).length = g1.length + gs.length :=
          List.length_append g1 gs
        omega)
      simp [matchAtF, hiter, hrec]

/-! ## The main characterisation of `validImage` -/

/-- The image validator accepts exactly the empty string together with the
full-length matches of its regular expression: `FindString` never returns a
match longer than the input, and on language members the greedy scan
consumes the whole input, so comparing lengths is exact — except at `""`,
where no match exists, `FindString` returns `""`, and the length comparison
succeeds vacuously. -/
theorem validImage_iff (s : String) :
    validImage s = true ↔ s.data = [] ∨ FullImageMatch s.data := by
  constructor
  · intro h
    have hlen : (findString s.data).length = s.data.length := by
      simpa [validImage] using h
    rcases findString_full hlen with h0 | hm
    · exact Or.inl h0
    · exact Or.inr (matchAt_spec hm).2
  · intro h
    rcases h with h | h
    · simp [validImage, h, findString]
    · obtain ⟨g, c, hg, hc, heq⟩ := h
      have hcne : c ≠ [] := by
        obtain ⟨a, rest, hane, -, -, hceq⟩ := hc
        subst hceq
        intro hcon
        exact hane (List.append_eq_nil.mp hcon).1
      have hne : g ++ c ≠ [] := fun hcon => hcne (List.append_eq_nil.mp hcon).2
      have hmatch : matchAt (g ++ c) = some (g ++ c) :=
        matchAtF_complete hg c hc (g ++ c).length (by simp)
      have hfs : findString (g ++ c) = g ++ c := by
        cases hgc : g ++ c with
        | nil => exact absurd hgc hne
        | cons x t =>
          rw [hgc] at hmatch
          simp [findString, hmatch]
      simp [validImage, heq, hfs]

/-! ## `getImageName` — Go `strings.Replace(s, old, new, 1)`

`buildshiprun/handler.go` lines 359–364:

  func getImageName(repositoryURL, pushRepositoryURL, imageName string) string {
    return strings.Replace(imageName, pushRepositoryURL, repositoryURL, 1)
  }
-/

/-- Index of the first occurrence of `pat` in `s` (Go `strings.Index`):
`some 0` for the empty pattern, `none` when `pat` never occurs. -/
def firstOcc (pat : List Char) : List Char → Option Nat
  | [] => if pat.isPrefixOf [] then some 0 else none
  | c :: t =>
    if pat.isPrefixOf (c :: t) then some 0 else (firstOcc pat t).map (· + 1)

/-- Go `strings.Replace(s, old, new, 1)`: substitute `new` for the first
occurrence of `old` (inserting at the front when `old` is empty), leave `s`
unchanged when `old` does not occur. -/
def replaceOnce (s old new : List Char) : List Char :=
  match firstOcc old s with
  | none => s
  | some i => s.take i ++ new ++ s.drop (i + old.length)

/-- `getImageName`: rewrite the pushed image reference for deployment. -/
def getImageName (repositoryURL pushRepositoryURL imageName : String) : String :=
  ⟨replaceOnce imageName.data pushRepositoryURL.data repositoryURL.data⟩

theorem firstOcc_self (old rest : List Char) :
    firstOcc old (old ++ rest) = some 0 := by
  have hp : old.isPrefixOf (old ++ rest) = true :=
    List.isPrefixOf_iff_prefix.mpr (List.prefix_append old rest)
  cases h : old ++ rest with
  | nil => simp [firstOcc, h ▸ hp]
  | cons c t => simp [firstOcc, h ▸ hp]

theorem replaceOnce_first (old rest new : List Char) :
    replaceOnce (old ++ rest) old new = new ++ rest := by
  simp [replaceOnce, firstOcc_self, List.drop_left]

/-- The image rewrite replaces the leading internal-registry prefix (its
first occurrence) and leaves the rest of the reference — including any later
occurrence of the same prefix string — untouched. -/
theorem getImageName_rewrite (ip pp rest : String) :
    getImageName pp ip (ip ++ rest) = pp ++ rest := by
  have hdata : (ip ++ rest).data = ip.data ++ rest.data := String.data_append ip rest
  have : replaceOnce (ip ++ rest).data ip.data pp.data = pp.data ++ rest.data := by
    rw [hdata]
    exact replaceOnce_first ip.data rest.data pp.data
  apply String.ext
  rw [getImageName] at *
  simp [this, String.data_append]
  exact replaceOnce_first ip.data rest.data pp.data

/-! ## The orchestrator (`buildshiprun/handler.go`)

Effectful code is embedded as explicit state passing: every function takes
an environment holding the outcomes of its external collaborators (the
builder call, the gateway calls, the token mint, the commit-status post,
the JSON parses of the trigger headers) and returns the ordered list of
observable effects it performs together with its Go return value.
`log.Fatal`, `log.Panic` and `os.Exit` terminate the process, which the
model renders as the `Outcome.exited` result: effects sequenced after such
a call never happen.  Console prints are not traced, except the
`fmt.Printf` failure logs of `reportStatus`, which claim C8 inspects. -/

/-- Go `strings.TrimSpace`, restricted to the ASCII space characters
(`' '`, tab, newline, carriage return); other Unicode space code points do
not occur in the strings the pipeline handles. -/
def isSpaceGo (c : Char) : Bool :=
  c = ' ' || c = '\t' || c = '\n' || c = '\r'

/-- Go `strings.TrimSpace`. -/
def trimSpace (s : String) : String :=
  ⟨((s.data.dropWhile isSpaceGo).reverse.dropWhile isSpaceGo).reverse⟩

/-- Go `strings.Replace(s, old, new, 1)` on `String`. -/
def goReplace1 (s old new : String) : String :=
  ⟨replaceOnce s.data old.data new.data⟩

/-- Go `strings.HasSuffix`. -/
def hasSuffixGo (s t : String) : Bool :=
  t.data.isSuffixOf s.data

/-- `strconv.Atoi` for the decimal strings used as installation ids: an
optional sign followed by at least one digit (64-bit overflow is not
modelled; installation ids are far below the bound). -/
def goAtoi (s : String) : Except String Int :=
  let core : Int → List Char → Except String Int := fun sign digits =>
    if digits.isEmpty || !digits.all isDigitGo then
      .error ("parsing " ++ s ++ ": invalid syntax")
    else
      .ok (sign * digits.foldl (fun acc c => acc * 10 + (c.toNat - '0'.toNat : Nat)) 0)
  match s.data with
  | [] => .error ("parsing " ++ s ++ ": invalid syntax")
  | c :: t =>
    if c = '-' then core (-1) t
    else if c = '+' then core 1 t
    else core 1 (c :: t)

deriving instance DecidableEq for Except

/-- The trigger-event data `getEvent` assembles from the `Http_*` headers. -/
structure eventInfo where
  service : String
  owner : String
  repository : String
  image : String
  sha : String
  url : String
  installationID : Int
  environment : List (String × String)
  secrets : List String
deriving DecidableEq

/-- The `Http_*` header values `getEvent` reads, with the outcomes of the
two `json.Unmarshal` calls it performs carried as oracles (the JSON decoder
itself is an external library). -/
structure EventEnv where
  httpService : String
  httpOwner : String
  httpRepo : String
  httpSha : String
  httpUrl : String
  httpImage : String
  httpInstallationId : String
  httpEnv : String
  envParse : Except String (List (String × String))
  httpSecrets : String
  secretsParse : Except String (List String)
deriving DecidableEq

/-- `getEvent` (`handler.go` 149–199).  Returns the assembled event and the
error Go would return (only the `strconv.Atoi` failure is ever returned; the
JSON-parse failures are logged and replaced by empty collections). -/
def getEvent (env : EventEnv) : eventInfo × Option String :=
  let inst :=
    if env.httpInstallationId.length > 0 then
      match goAtoi env.httpInstallationId with
      | .ok n => (n, (none : Option String))
      | .error e => (0, some e)
    else (0, none)
  let environment :=
    if env.httpEnv.length > 0 then
      match env.envParse with
      | .ok m => m
      | .error _ => []
    else []
  let secretVars :=
    if env.httpSecrets.length > 0 then
      match env.secretsParse with
      | .ok l => l
      | .error _ => []
    else []
  ({ service := env.httpService, owner := env.httpOwner,
     repository := env.httpRepo, image := env.httpImage, sha := env.httpSha,
     url := env.httpUrl, installationID := inst.1,
     environment := environment,
     secrets := secretVars.map (fun s => env.httpOwner ++ "-" ++ s) },
   inst.2)

structure Limits where
  Memory : String
deriving DecidableEq

/-- The deployment descriptor POSTed/PUT to `system/functions`. -/
structure deployment where
  Service : String
  Image : String
  Network : String
  Labels : List (String × String)
  Limits : Limits
  EnvVars : List (String × String)
  Secrets : List String
deriving DecidableEq

inductive Method
  | post
  | put
deriving DecidableEq

/-- Observable effects of one orchestrator invocation, in order. -/
inductive Effect
  | auditPost (message owner repo source : String)
  | createStatus (state desc statusContext url : String)
  | listFunctions
  | deployUpsert (method : Method) (d : deployment)
  | logLine (line : String)
deriving DecidableEq

/-- `Handle`'s termination mode: a normal return value, or process exit via
`log.Fatal` / `log.Panic` / `os.Exit`. -/
inductive Outcome
  | returned (value : String)
  | exited
deriving DecidableEq

/-- Collaborator outcomes and configuration for one `Handle` invocation. -/
structure HandleEnv where
  event : EventEnv
  builderResponse : Except String String
  resStatus : String
  repositoryURL : String
  pushRepositoryURL : String
  gatewayURL : String
  defaultMemoryLimit : String
  nowUnix : Int
  gatewayFunctions : Except String (List String)
  deployResult : Except String Nat
  deployBody : String
  reportEnabled : Bool
  gatewayPublicURL : String
  gatewayPrettyURL : String
  tokenResult : Except String String
  createStatusResult : Except String Unit
deriving DecidableEq

/-- `buildPublicStatusURL` (`handler.go` 281–305). -/
def buildPublicStatusURL (env : HandleEnv) (status : String)
    (event : eventInfo) : String :=
  if status = "success" then
    if env.gatewayPrettyURL.length > 0 then
      goReplace1 (goReplace1 env.gatewayPrettyURL "user" event.owner)
        "function" event.service
    else if env.gatewayPublicURL.length > 0 then
      let publicURL :=
        if hasSuffixGo env.gatewayPublicURL "/" then env.gatewayPublicURL
        else env.gatewayPublicURL ++ "/"
      publicURL ++ "function/" ++ (event.owner ++ "-" ++ event.service)
    else event.url
  else event.url

/-- `buildStatus` (`handler.go` 355–357), as the four strings of the
`github.RepoStatus` it assembles: state, target URL, description, context. -/
def buildStatus (status desc statusContext url : String) :
    String × String × String × String :=
  (status, url, desc, statusContext)

/-- `reportStatus` (`handler.go` 307–340).  Returns the effects performed;
the Go function returns nothing, and every failure inside it is printed and
swallowed. -/
def reportStatus (env : HandleEnv) (status desc statusContext : String)
    (event : eventInfo) : List Effect :=
  if !env.reportEnabled then []
  else
    let url := buildPublicStatusURL env status event
    match env.tokenResult with
    | .error e => [.logLine ("failed to report status, error: " ++ e)]
    | .ok token =>
      if token = "" then
        [.logLine "failed to report status, error: authentication failed Invalid token"]
      else
        match env.createStatusResult with
        | .error e =>
          [.createStatus status desc statusContext url,
           .logLine ("failed to report status, error: " ++ e)]
        | .ok _ => [.createStatus status desc statusContext url]

/-- `functionExists` (`handler.go` 201–232): list the gateway's functions
and search for the service name.  On a transport failure it returns
`(false, err)`; a JSON-parse failure of the body is ignored by the Go code
(the list stays empty), so the environment carries the decoded list. -/
def functionExists (deploy : deployment) (env : HandleEnv) :
    List Effect × Bool × Option String :=
  match env.gatewayFunctions with
  | .error e => ([.listFunctions], false, some e)
  | .ok names => ([.listFunctions], names.contains deploy.Service, none)

/-- `deployFunction` (`handler.go` 234–275).  The error returned by
`functionExists` is discarded (Go reassigns `err` before checking it), so a
failed listing degrades to `exists == false` and a create. -/
def deployFunction (deploy : deployment) (env : HandleEnv) :
    List Effect × Except String String :=
  let fx := functionExists deploy env
  let method := if fx.2.1 then Method.put else Method.post
  match env.deployResult with
  | .error e => (fx.1 ++ [.deployUpsert method deploy], .error e)
  | .ok code =>
    if code < 200 || code > 299 then
      (fx.1 ++ [.deployUpsert method deploy],
       .error ("http status code " ++ toString code))
    else (fx.1 ++ [.deployUpsert method deploy], .ok env.deployBody)

/-- `Handle` (`handler.go` 32–147). -/
def Handle (env : HandleEnv) : List Effect × Outcome :=
  let ev := getEvent env.event
  match ev.2 with
  | some _ => ([], .exited)
  | none =>
    let event := ev.1
    match env.builderResponse with
    | .error err =>
      let msg := "buildshiprun failure: " ++ err
      (reportStatus env "failure" err "BUILD" event ++
         [.auditPost msg event.owner event.repository "buildshiprun"],
       .returned msg)
    | .ok body =>
      let imageName := trimSpace body
      if env.repositoryURL.length = 0 then ([], .exited)
      else if env.pushRepositoryURL.length = 0 then ([], .exited)
      else if !(validImage imageName) then
        (reportStatus env "failure" "Unable to build image, check builder logs"
           "DEPLOY" event,
         .exited)
      else if imageName.length > 0 then
        let imageName2 := getImageName env.repositoryURL env.pushRepositoryURL imageName
        let serviceValue := event.owner ++ "-" ++ event.service
        let memory :=
          if env.defaultMemoryLimit.length = 0 then "20m" else env.defaultMemoryLimit
        let deploy : deployment :=
          { Service := serviceValue
            Image := imageName2
            Network := "func_functions"
            Labels := [("Git-Cloud", "1"), ("Git-Owner", event.owner),
                       ("Git-Repo", event.repository),
                       ("Git-DeployTime", toString env.nowUnix),
                       ("Git-SHA", event.sha), ("faas_function", serviceValue),
                       ("app", serviceValue)]
            Limits := { Memory := memory }
            EnvVars := event.environment
            Secrets := event.secrets }
        let dr := deployFunction deploy env
        match dr.2 with
        | .error e =>
          (dr.1 ++ reportStatus env "failure" e "DEPLOY" event, .exited)
        | .ok _ =>
          (dr.1 ++
             [.auditPost ("buildshiprun succeeded: deployed " ++ imageName2)
                event.owner event.repository "buildshiprun"] ++
             reportStatus env "success"
               ("function successfully deployed as: " ++ serviceValue) "DEPLOY" event,
           .returned ("buildStatus " ++ body ++ " " ++ imageName2 ++ " " ++ env.resStatus))
      else
        ([.auditPost "" event.owner event.repository "buildshiprun"] ++
           reportStatus env "success" ("function successfully deployed as: " ++ "")
             "DEPLOY" event,
         .returned ("buildStatus " ++ body ++ " " ++ imageName ++ " " ++ env.resStatus))

/-! ## The build service (`of-builder/main.go`)

The solve-status events streamed by the build engine carry times and
durations; their `fmt` renderings are carried in the event fields as
pre-formatted strings (the claims only ever count and order the rendered
lines).  `time.Now()` of the drain loop is the environment's `now`. -/

/-- One `client.Vertex`: `started` is the `%s`/RFC3339 rendering of
`Started` when non-nil; `completed` is the `%.2f`-seconds rendering of the
duration when `Completed` is non-nil. -/
structure Vertex where
  name : String
  started : Option String
  completed : Option String
deriving DecidableEq

structure VertexStatus where
  timestamp : String
  id : String
  current : Int
deriving DecidableEq

structure VertexLog where
  timestamp : String
  data : String
deriving DecidableEq

/-- One `client.SolveStatus` event from the engine's channel. -/
structure SolveStatus where
  vertexes : List Vertex
  statuses : List VertexStatus
  logs : List VertexLog
deriving DecidableEq

/-- The vertex loop of the drain goroutine (main.go 167–184). -/
def renderVertex (now : String) (v : Vertex) : String :=
  match v.completed with
  | some dur => "v: " ++ v.started.getD "<nil>" ++ " " ++ v.name ++ " " ++ dur ++ "s"
  | none => "v: " ++ v.started.getD now ++ " " ++ v.name

/-- The status loop (main.go 185–190). -/
def renderStatus (s : VertexStatus) : String :=
  "s: " ++ s.timestamp ++ " " ++ s.id ++ " " ++ toString s.current

/-- The log loop (main.go 191–197). -/
def renderLog (l : VertexLog) : String :=
  "l: " ++ l.timestamp ++ " " ++ l.data

/-- The lines one event appends to the build log, in loop order:
vertexes, then statuses, then logs. -/
def renderEvent (now : String) (ev : SolveStatus) : List String :=
  ev.vertexes.map (renderVertex now) ++ ev.statuses.map renderStatus ++
    ev.logs.map renderLog

/-- The full build log after the drain goroutine consumed the channel. -/
def drainLog (now : String) (events : List SolveStatus) : List String :=
  (events.map (renderEvent now)).flatten

/-- `BuildResult` (main.go 228–232); a `nil` `Log` slice is `none`. -/
structure BuildResult where
  Log : Option (List String)
  ImageName : String
  Status : String
deriving DecidableEq

/-- The `config` file content `{Ref, Frontend}` (main.go 105–108). -/
structure BuildConfig where
  Ref : String
  Frontend : String
deriving DecidableEq

/-- The externally visible steps of one `build` call, for tracing which
steps ran. -/
inductive BuildStep
  | untar
  | readConfig
  | parseConfig
  | clientNew
  | solve
deriving DecidableEq

/-- Collaborator outcomes for one `build` call: the untar, the config-file
read, the JSON parse (a function of the bytes read), the engine connection,
and the engine's event stream and final solve verdict. -/
structure BuildEnv where
  untarResult : Except String Unit
  configRead : Except String String
  configParse : String → Except String BuildConfig
  insecureVar : Option String
  clientNewResult : Except String Unit
  solveEvents : List SolveStatus
  solveResult : Except String Unit
  now : String

/-- `build` (main.go 86–224): the steps performed, the `BuildResult` bytes
returned (`none` for Go's `nil`), and the error returned.  The solve-option
assembly (exporter attributes, local dirs, frontend defaulting, the
`insecure` flag) does not influence the response value and is not traced. -/
def build (env : BuildEnv) : List BuildStep × Option BuildResult × Option String :=
  match env.untarResult with
  | .error e => ([.untar], none, some e)
  | .ok _ =>
    match env.configRead with
    | .error e => ([.untar, .readConfig], none, some e)
    | .ok raw =>
      match env.configParse raw with
      | .error e => ([.untar, .readConfig, .parseConfig], none, some e)
      | .ok cfg =>
        if cfg.Ref = "" then
          ([.untar, .readConfig, .parseConfig], none,
           some "no target reference to push")
        else
          match env.clientNewResult with
          | .error e =>
            ([.untar, .readConfig, .parseConfig, .clientNew], none, some e)
          | .ok _ =>
            let logLines := drainLog env.now env.solveEvents
            match env.solveResult with
            | .error e =>
              ([.untar, .readConfig, .parseConfig, .clientNew, .solve],
               some { Log := some logLines, ImageName := cfg.Ref,
                      Status := "failure: " ++ e }, some e)
            | .ok _ =>
              ([.untar, .readConfig, .parseConfig, .clientNew, .solve],
               some { Log := some logLines, ImageName := cfg.Ref,
                      Status := "success" }, none)

/-- `buildHandler` (main.go 64–84): the HTTP status code and the
`BuildResult` the response body serialises.  On an error with a `nil` body
from `build`, the handler manufactures the `unexpected failure` result, so
the caller always receives a well-formed body. -/
def buildHandler (env : BuildEnv) : Nat × BuildResult :=
  let r := build env
  match r.2.2 with
  | some e =>
    (500,
     match r.2.1 with
     | some dt => dt
     | none => { Log := none, ImageName := "", Status := "unexpected failure: " ++ e })
  | none =>
    (200,
     match r.2.1 with
     | some dt => dt
     | none => { Log := none, ImageName := "", Status := "" })

/-! ## The build log (`of-builder/main.go` 234–243)

`Append` locks the mutex, appends one line, unlocks.  The lock makes each
append atomic, so a complete run of K concurrent producers, each appending
one line, is a fold of the K single-line appends in some order — an
arbitrary permutation of the produced lines chosen by the scheduler. -/

/-- The body of `buildLog.Append` under the lock. -/
def buildLogAppend (line : List String) (msg : String) : List String :=
  line ++ [msg]

/-- One complete execution: the serialised appends, applied in schedule
order to the initial log. -/
def runAppends (sched : List String) (st : List String) : List String :=
  sched.foldl buildLogAppend st

theorem runAppends_eq (sched : List String) :
    ∀ st : List String, runAppends sched st = st ++ sched := by
  induction sched with
  | nil => intro st; simp [runAppends]
  | cons x t ih =>
    intro st
    have : runAppends (x :: t) st = runAppends t (st ++ [x]) := rfl
    rw [this, ih]
    simp

/-! ## Claims -/

/-- C1, counterexample to the claim as stated: the validator accepts the
empty string although it is in no reasonable reading of the canonical
`registry[/namespace...]/name[:tag]` grammar, and it rejects
`"a/b/c:1"` — a registry/namespace/name reference with a tag — although the
spec's grammar accepts it (the validator's regex has no tag production on
the final name). -/
theorem claimC1_counterexample :
    validImage "" = true ∧ canonicalRefGrammar "" = false ∧
    canonicalRefGrammar "a/b/c:1" = true ∧ validImage "a/b/c:1" = false := by
  decide

/-- C1 (amended): for every string `s`, `validImage` accepts `s` iff `s` is
empty or `s` matches the validator's own regular expression
`(comp[:port]/comp/)*comp` over its entire length; in particular a
non-matching prefix or suffix (for example a trailing invalid character)
causes rejection, never truncate-and-accept. -/
theorem claimC1_amended (s : String) :
    validImage s = true ↔ s.data = [] ∨ FullImageMatch s.data :=
  validImage_iff s

/-- A build-service environment whose unpack step fails. -/
def envC2 : BuildEnv :=
  { untarResult := .error "boom", configRead := .ok "", insecureVar := none,
    configParse := fun _ => .ok { Ref := "", Frontend := "" },
    clientNewResult := .ok (), solveEvents := [], solveResult := .ok (),
    now := "t0" }

/-- C2, counterexample to the claim as stated: when the unpack step fails,
the response is HTTP 500 with a well-formed body, but its status field is
`"unexpected failure: <message>"`, not `"failure: <message>"`. -/
theorem claimC2_counterexample :
    buildHandler envC2 =
      (500, { Log := none, ImageName := "", Status := "unexpected failure: boom" }) ∧
    ("failure:".data.isPrefixOf "unexpected failure: boom".data = false) := by
  constructor
  · rfl
  · decide

/-- C2 (amended): every failing build request yields HTTP 500 and a body
that is a well-formed `BuildResult`; when the engine solve (joined with the
drain) fails, the status is `"failure: <message>"`, the image name is the
target reference, and the log is exactly the lines rendered from the events
emitted before the failure; when a step before the solve fails — unpack,
config read, config parse, empty target reference, or engine connect — the
status is `"unexpected failure: <message>"`, the image name is empty and
the log is null. -/
theorem claimC2_amended :
    (∀ (env : BuildEnv) (e : String),
        (build env).2.2 = some e → (buildHandler env).1 = 500) ∧
    (∀ (env : BuildEnv) (raw : String) (cfg : BuildConfig) (msg : String),
        env.untarResult = .ok () → env.configRead = .ok raw →
        env.configParse raw = .ok cfg → cfg.Ref ≠ "" →
        env.clientNewResult = .ok () → env.solveResult = .error msg →
        buildHandler env =
          (500, { Log := some (drainLog env.now env.solveEvents),
                  ImageName := cfg.Ref, Status := "failure: " ++ msg })) ∧
    (∀ (env : BuildEnv) (e : String),
        env.untarResult = .error e →
        buildHandler env =
          (500, { Log := none, ImageName := "",
                  Status := "unexpected failure: " ++ e })) ∧
    (∀ (env : BuildEnv) (e : String),
        env.untarResult = .ok () → env.configRead = .error e →
        buildHandler env =
          (500, { Log := none, ImageName := "",
                  Status := "unexpected failure: " ++ e })) ∧
    (∀ (env : BuildEnv) (raw e : String),
        env.untarResult = .ok () → env.configRead = .ok raw →
        env.configParse raw = .error e →
        buildHandler env =
          (500, { Log := none, ImageName := "",
                  Status := "unexpected failure: " ++ e })) ∧
    (∀ (env : BuildEnv) (raw : String) (cfg : BuildConfig),
        env.untarResult = .ok () → env.configRead = .ok raw →
        env.configParse raw = .ok cfg → cfg.Ref = "" →
        buildHandler env =
          (500, { Log := none, ImageName := "",
                  Status := "unexpected failure: no target reference to push" })) ∧
    (∀ (env : BuildEnv) (raw : String) (cfg : BuildConfig) (e : String),
        env.untarResult = .ok () → env.configRead = .ok raw →
        env.configParse raw = .ok cfg → cfg.Ref ≠ "" →
        env.clientNewResult = .error e →
        buildHandler env =
          (500, { Log := none, ImageName := "",
                  Status := "unexpected failure: " ++ e })) := by
  refine ⟨?_, ?_, ?_, ?_, ?_, ?_, ?_⟩
  · intro env e h
    simp [buildHandler, h]
  · intro env raw cfg msg h1 h2 h3 h4 h5 h6
    simp [buildHandler, build, h1, h2, h3, h4, h5, h6]
  · intro env e h1
    simp [buildHandler, build, h1]
  · intro env e h1 h2
    simp [buildHandler, build, h1, h2]
  · intro env raw e h1 h2 h3
    simp [buildHandler, build, h1, h2, h3]
  · intro env raw cfg h1 h2 h3 h4
    simp [buildHandler, build, h1, h2, h3, h4]
  · intro env raw cfg e h1 h2 h3 h4 h5
    simp [buildHandler, build, h1, h2, h3, h4, h5]

/-- A build-service environment whose engine solve fails after two events. -/
def envC2w : BuildEnv :=
  { untarResult := .ok (), configRead := .ok "cfgbytes", insecureVar := none,
    configParse := fun _ => .ok { Ref := "reg/acct/svc", Frontend := "" },
    clientNewResult := .ok (),
    solveEvents :=
      [{ vertexes := [{ name := "step1", started := some "t1", completed := none }],
         statuses := [], logs := [] },
       { vertexes := [], statuses := [],
         logs := [{ timestamp := "t2", data := "output" }] }],
    solveResult := .error "engine broke", now := "t0" }

/-- `envC2` with the unpack succeeding and the config read failing. -/
def envC2r : BuildEnv :=
  { envC2 with untarResult := .ok (), configRead := .error "readfail" }

/-- `envC2` with unpack and read succeeding and the config parse failing. -/
def envC2p : BuildEnv :=
  { envC2 with untarResult := .ok (), configRead := .ok "junk",
               configParse := fun _ => .error "parsefail" }

/-- `envC2` with the unpack succeeding; its config parses to an empty
target reference. -/
def envC2e : BuildEnv := { envC2 with untarResult := .ok () }

/-- `envC2` with a valid config and a failing engine connection. -/
def envC2c : BuildEnv :=
  { envC2 with untarResult := .ok (),
               configParse := fun _ => .ok { Ref := "r/a/s", Frontend := "" },
               clientNewResult := .error "connfail" }

/-- C2, witness: the amended theorem applied at a concrete instance of
every failure step — the blanket 500, the solve failure, and the unpack,
config-read, config-parse, empty-target-reference and engine-connect
failures. -/
theorem claimC2_witness :
    (buildHandler envC2).1 = 500 ∧
    buildHandler envC2w =
      (500, { Log := some ["v: t1 step1", "l: t2 output"],
              ImageName := "reg/acct/svc", Status := "failure: engine broke" }) ∧
    buildHandler envC2 =
      (500, { Log := none, ImageName := "",
              Status := "unexpected failure: boom" }) ∧
    buildHandler envC2r =
      (500, { Log := none, ImageName := "",
              Status := "unexpected failure: readfail" }) ∧
    buildHandler envC2p =
      (500, { Log := none, ImageName := "",
              Status := "unexpected failure: parsefail" }) ∧
    buildHandler envC2e =
      (500, { Log := none, ImageName := "",
              Status := "unexpected failure: no target reference to push" }) ∧
    buildHandler envC2c =
      (500, { Log := none, ImageName := "",
              Status := "unexpected failure: connfail" }) := by
  refine ⟨?_, ?_, ?_, ?_, ?_, ?_, ?_⟩
  · exact claimC2_amended.1 envC2 "boom" rfl
  · have h := claimC2_amended.2.1 envC2w "cfgbytes"
      { Ref := "reg/acct/svc", Frontend := "" } "engine broke"
      rfl rfl rfl (by decide) rfl rfl
    simpa [drainLog, renderEvent, renderVertex, renderLog, envC2w] using h
  · exact claimC2_amended.2.2.1 envC2 "boom" rfl
  · exact claimC2_amended.2.2.2.1 envC2r "readfail" rfl rfl
  · exact claimC2_amended.2.2.2.2.1 envC2p "junk" "parsefail" rfl rfl rfl
  · exact claimC2_amended.2.2.2.2.2.1 envC2e ""
      { Ref := "", Frontend := "" } rfl rfl rfl rfl
  · exact claimC2_amended.2.2.2.2.2.2 envC2c ""
      { Ref := "r/a/s", Frontend := "" } "connfail" rfl rfl rfl (by decide) rfl

/-- C5: the image rewrite replaces the first occurrence of the internal
push-registry prefix with the public registry prefix, for every pair of
prefixes, and substitutes exactly once even when the prefix string occurs
again later in the reference. -/
theorem claimC5 (ip pp : String) :
    getImageName pp ip (ip ++ "/ns/name:tag") = pp ++ "/ns/name:tag" ∧
    getImageName pp ip (ip ++ ("/ns/" ++ ip ++ ":tag")) =
      pp ++ ("/ns/" ++ ip ++ ":tag") :=
  ⟨getImageName_rewrite ip pp "/ns/name:tag",
   getImageName_rewrite ip pp ("/ns/" ++ ip ++ ":tag")⟩

/-- C6: the build log is a mutex-guarded slice whose only mutation is the
atomic single-line append, so a complete execution of K concurrent
producers is some scheduler-chosen permutation of the K appends; every such
execution ends with exactly K lines — every produced line, no loss and no
duplication. -/
theorem claimC6 (msgs sched : List String) (h : sched.Perm msgs) :
    (runAppends sched []).length = msgs.length ∧
    (runAppends sched []).Perm msgs := by
  have he : runAppends sched [] = sched := by simpa using runAppends_eq sched []
  rw [he]
  exact ⟨h.length_eq, h⟩

/-- C6, witness: two producers scheduled in reversed order still yield a
two-line log that is a permutation of the produced lines. -/
theorem claimC6_witness :
    (["beta", "alpha"] : List String).Perm ["alpha", "beta"] ∧
    (runAppends ["beta", "alpha"] []).length = 2 ∧
    (runAppends ["beta", "alpha"] []).Perm ["alpha", "beta"] := by
  refine ⟨by decide, ?_⟩
  have h := claimC6 ["alpha", "beta"] ["beta", "alpha"] (by decide)
  simpa using h

/-- C9: a parsed config with an empty target reference makes `build` fail
with the validation error before connecting to the engine and before
submitting any solve: neither step appears in the executed-step trace. -/
theorem claimC9 (env : BuildEnv) (raw : String) (cfg : BuildConfig)
    (h1 : env.untarResult = .ok ()) (h2 : env.configRead = .ok raw)
    (h3 : env.configParse raw = .ok cfg) (h4 : cfg.Ref = "") :
    build env = ([.untar, .readConfig, .parseConfig], none,
                 some "no target reference to push") ∧
    (build env).1.contains .solve = false ∧
    (build env).1.contains .clientNew = false := by
  have hb : build env = ([.untar, .readConfig, .parseConfig], none,
      some "no target reference to push") := by
    simp [build, h1, h2, h3, h4]
  refine ⟨hb, ?_, ?_⟩ <;> rw [hb] <;> decide

/-- A build-service environment whose config parses to an empty target
reference. -/
def envC9 : BuildEnv :=
  { untarResult := .ok (), configRead := .ok "cfgbytes", insecureVar := none,
    configParse := fun _ => .ok { Ref := "", Frontend := "" },
    clientNewResult := .ok (), solveEvents := [], solveResult := .ok (),
    now := "t0" }

/-- C9, witness: the theorem applied at a concrete empty-reference config. -/
theorem claimC9_witness :
    build envC9 = ([.untar, .readConfig, .parseConfig], none,
                   some "no target reference to push") ∧
    (build envC9).1.contains .solve = false := by
  have h := claimC9 envC9 "cfgbytes" { Ref := "", Frontend := "" } rfl rfl rfl rfl
  exact ⟨h.1, h.2.1⟩

/-- Header values of a well-formed trigger event. -/
def evEnvC3 : EventEnv :=
  { httpService := "fn", httpOwner := "alex", httpRepo := "repo",
    httpSha := "sha1", httpUrl := "u", httpImage := "",
    httpInstallationId := "", httpEnv := "", envParse := .ok [],
    httpSecrets := "", secretsParse := .ok [] }

/-- An orchestrator environment in which the builder's response body is
`"!"` — a string the image validator rejects — and everything else is
healthy, with status reporting enabled. -/
def envC3 : HandleEnv :=
  { event := evEnvC3, builderResponse := .ok "!", resStatus := "200 OK",
    repositoryURL := "reg.public", pushRepositoryURL := "reg.local",
    gatewayURL := "gw/", defaultMemoryLimit := "", nowUnix := 0,
    gatewayFunctions := .ok [], deployResult := .ok 200, deployBody := "",
    reportEnabled := true, gatewayPublicURL := "", gatewayPrettyURL := "",
    tokenResult := .ok "tok", createStatusResult := .ok () }

/-- C3, evaluation at the failing input: when the builder's image name
fails validation, `Handle` records the failure commit status for stage
DEPLOY and then `log.Fatal` terminates the process, so the audit event of
`handler.go` line 91 and the `return msg` of line 92 — both written after
`log.Fatal(msg)` on line 89 — never execute: no audit effect is emitted and
no value is returned.  (No deployment is attempted either.) -/
theorem claimC3_code_bug :
    (Handle envC3).2 = .exited ∧
    (Handle envC3).1 =
      [.createStatus "failure" "Unable to build image, check builder logs"
         "DEPLOY" "u"] ∧
    (Handle envC3).1.all
      (fun e => match e with
        | .auditPost _ _ _ _ => false
        | .deployUpsert _ _ => false
        | _ => true) = true := by
  refine ⟨rfl, rfl, ?_⟩
  decide

/-- C4: the deployment client always lists the gateway's functions first
and only then issues the upsert, choosing update (PUT) when the service
name is in the returned list and create (POST) otherwise. -/
theorem claimC4 (d : deployment) (env : HandleEnv) (names : List String)
    (h : env.gatewayFunctions = .ok names) :
    (deployFunction d env).1 =
      [.listFunctions,
       .deployUpsert (if names.contains d.Service then .put else .post) d] := by
  simp only [deployFunction, functionExists, h]
  cases hd : env.deployResult with
  | error e => simp [hd]
  | ok code =>
    simp only [hd]
    by_cases hc : code < 200 ∨ 299 < code <;> simp [hc]

/-- A deployment descriptor for an already-present function. -/
def d4 : deployment :=
  { Service := "alex-fn", Image := "img", Network := "func_functions",
    Labels := [], Limits := { Memory := "20m" }, EnvVars := [], Secrets := [] }

/-- `envC3` with the function list containing the target service. -/
def envC4 : HandleEnv := { envC3 with gatewayFunctions := .ok ["alex-fn", "other"] }

/-- C4, witness: present in the listing yields an update (PUT), after the
listing call. -/
theorem claimC4_witness :
    envC4.gatewayFunctions = .ok ["alex-fn", "other"] ∧
    (deployFunction d4 envC4).1 = [.listFunctions, .deployUpsert .put d4] := by
  refine ⟨rfl, ?_⟩
  rw [claimC4 d4 envC4 ["alex-fn", "other"] rfl]
  decide

/-- C10: the validator accepts the empty string, so a builder response that
trims to the empty string skips the validation-failure branch, performs no
deployment (no listing, no upsert), posts the success commit status for
stage DEPLOY with the empty service name in its description, and returns
normally. -/
theorem claimC10 (env : HandleEnv) (body : String)
    (hresp : env.builderResponse = .ok body) (htrim : trimSpace body = "")
    (hrepo : env.repositoryURL.length ≠ 0)
    (hpush : env.pushRepositoryURL.length ≠ 0)
    (hev : (getEvent env.event).2 = none) :
    validImage "" = true ∧
    (Handle env).1 =
      [.auditPost "" env.event.httpOwner env.event.httpRepo "buildshiprun"] ++
        reportStatus env "success" ("function successfully deployed as: " ++ "")
          "DEPLOY" (getEvent env.event).1 ∧
    (Handle env).1.all (fun e => match e with
      | .deployUpsert _ _ => false
      | .listFunctions => false
      | _ => true) = true ∧
    (Handle env).2 =
      .returned ("buildStatus " ++ body ++ " " ++ "" ++ " " ++ env.resStatus) := by
  have hval : validImage "" = true := by decide
  have hlen : ¬(("" : String).length > 0) := by decide
  refine ⟨hval, ?_⟩
  simp only [Handle, hev, hresp, htrim, hval, Bool.not_true, Bool.false_eq_true,
    if_false, hlen, if_neg hrepo, if_neg hpush]
  refine ⟨rfl, ?_, trivial⟩
  simp only [List.all_append, List.all_cons, List.all_nil, Bool.and_true, Bool.true_and]
  have hrfree : ∀ (e' : HandleEnv) s d cx ev,
      (reportStatus e' s d cx ev).all (fun e => match e with
        | Effect.deployUpsert _ _ => false
        | Effect.listFunctions => false
        | _ => true) = true := by
    intro e' s d cx ev
    by_cases hre : e'.reportEnabled <;> simp [reportStatus, hre]
    cases e'.tokenResult with
    | error e => simp
    | ok token =>
      by_cases ht : token = "" <;> simp [ht]
      cases e'.createStatusResult with
      | error e => simp
      | ok u => simp
  exact hrfree env "success" _ "DEPLOY" _

/-- A builder response that trims to the empty string. -/
def envC10 : HandleEnv := { envC3 with builderResponse := .ok "\n" }

/-- C10, witness: the theorem applied at a concrete whitespace-only
builder response. -/
theorem claimC10_witness :
    trimSpace "\n" = "" ∧
    (Handle envC10).2 =
      .returned ("buildStatus " ++ "\n" ++ " " ++ "" ++ " " ++ "200 OK") := by
  refine ⟨by decide, ?_⟩
  exact (claimC10 envC10 "\n" rfl (by decide) (by decide) (by decide) rfl).2.2.2

/-- The owner-prefix check of a downstream secret name. -/
def hasOwnerPre (owner s : String) : Bool :=
  (owner ++ "-").data.isPrefixOf s.data

/-- An effect respects the owner-prefix invariant when any deployment
descriptor it carries names only owner-prefixed secrets. -/
def deploySecretsOK (owner : String) : Effect → Bool
  | .deployUpsert _ d => d.Secrets.all (hasOwnerPre owner)
  | _ => true

theorem getEvent_secrets_prefixed (env : EventEnv) :
    ((getEvent env).1.secrets).all (hasOwnerPre env.httpOwner) = true := by
  simp only [getEvent]
  rw [List.all_eq_true]
  intro s hs
  rw [List.mem_map] at hs
  obtain ⟨x, -, hx⟩ := hs
  subst hx
  have hdata : (env.httpOwner ++ "-" ++ x).data =
      (env.httpOwner ++ "-").data ++ x.data := String.data_append _ _
  simp only [hasOwnerPre, hdata]
  exact List.isPrefixOf_iff_prefix.mpr (List.prefix_append _ _)

theorem functionExists_trace (d : deployment) (env : HandleEnv) :
    (functionExists d env).1 = [.listFunctions] := by
  simp only [functionExists]
  cases env.gatewayFunctions <;> rfl

theorem deployFunction_trace (d : deployment) (env : HandleEnv) :
    (deployFunction d env).1 =
      [.listFunctions,
       .deployUpsert (if (functionExists d env).2.1 then .put else .post) d] := by
  simp only [deployFunction, functionExists_trace]
  cases hd : env.deployResult with
  | error e => simp
  | ok code => by_cases hc : code < 200 ∨ 299 < code <;> simp [hc]

/-- `reportStatus` emits only commit-status calls and log lines. -/
theorem reportStatus_all (p : Effect → Bool)
    (hcs : ∀ a b c d, p (.createStatus a b c d) = true)
    (hll : ∀ s, p (.logLine s) = true) (env : HandleEnv)
    (status desc ctx : String) (ev : eventInfo) :
    (reportStatus env status desc ctx ev).all p = true := by
  by_cases hre : env.reportEnabled <;> simp [reportStatus, hre]
  cases env.tokenResult with
  | error e => simp [hll]
  | ok token =>
    by_cases ht : token = "" <;> simp [ht, hll]
    cases env.createStatusResult with
    | error e => simp [hcs, hll]
    | ok u => simp [hcs]

/-- C7: every secret name assembled by `getEvent` carries the owner prefix
`owner-`, and every deployment descriptor `Handle` sends downstream carries
exactly such owner-prefixed secret names. -/
theorem claimC7 (env : HandleEnv) :
    ((getEvent env.event).1.secrets).all (hasOwnerPre env.event.httpOwner) = true ∧
    (Handle env).1.all (deploySecretsOK env.event.httpOwner) = true := by
  have hsec := getEvent_secrets_prefixed env.event
  have hrep : ∀ status desc ctx ev,
      (reportStatus env status desc ctx ev).all
        (deploySecretsOK env.event.httpOwner) = true :=
    fun status desc ctx ev =>
      reportStatus_all _ (fun _ _ _ _ => rfl) (fun _ => rfl) env status desc ctx ev
  refine ⟨hsec, ?_⟩
  simp only [Handle]
  cases hev : (getEvent env.event).2 with
  | some e => rfl
  | none =>
    cases hbr : env.builderResponse with
    | error err => simp [List.all_append, hrep, deploySecretsOK]
    | ok body =>
      by_cases hrepo : env.repositoryURL.length = 0
      · simp [hrepo]
      · by_cases hpush : env.pushRepositoryURL.length = 0
        · simp [hrepo, hpush]
        · by_cases hval : validImage (trimSpace body)
          case neg => simp [hrepo, hpush, hval, hrep]
          case pos =>
            by_cases himg : (trimSpace body).length > 0
            case neg =>
              simp [hrepo, hpush, hval, himg, List.all_append, hrep, deploySecretsOK]
            case pos =>
              simp only [hrepo, hpush, hval, himg, if_false, if_true,
                Bool.not_true, Bool.false_eq_true, if_neg, if_pos]
              split
              · rw [deployFunction_trace]
                simp [List.all_append, hrep, deploySecretsOK, hsec]
              · rw [deployFunction_trace]
                simp [List.all_append, hrep, deploySecretsOK, hsec]

/-- The effects that touch the serving platform's function registry. -/
def isDeployEffect : Effect → Bool
  | .listFunctions => true
  | .deployUpsert _ _ => true
  | _ => false

theorem reportStatus_filter_deploy (env : HandleEnv) (status desc ctx : String)
    (ev : eventInfo) :
    (reportStatus env status desc ctx ev).filter isDeployEffect = [] := by
  by_cases hre : env.reportEnabled <;> simp [reportStatus, hre, isDeployEffect]
  cases env.tokenResult with
  | error e => simp [isDeployEffect]
  | ok token =>
    by_cases ht : token = "" <;> simp [ht, isDeployEffect]
    cases env.createStatusResult with
    | error e => simp [isDeployEffect]
    | ok u => simp [isDeployEffect]

/-- C8: a failure to mint the installation token makes `reportStatus`
print one log line and return — no error escapes it (its Go signature
returns nothing); and the reporting collaborators' outcomes (token mint,
commit-status post) have no influence on `Handle`'s result nor on the
deployment effects it performs: an already-completed deployment is never
rolled back or invalidated by a reporting failure. -/
theorem claimC8 :
    (∀ (env : HandleEnv) (status desc ctx : String) (ev : eventInfo) (e : String),
        env.reportEnabled = true → env.tokenResult = .error e →
        reportStatus env status desc ctx ev =
          [.logLine ("failed to report status, error: " ++ e)]) ∧
    (∀ (env : HandleEnv) (t : Except String String) (c : Except String Unit),
        (Handle { env with tokenResult := t, createStatusResult := c }).2
          = (Handle env).2 ∧
        (Handle { env with tokenResult := t, createStatusResult := c }).1.filter
            isDeployEffect
          = (Handle env).1.filter isDeployEffect) := by
  constructor
  · intro env status desc ctx ev e h1 h2
    simp [reportStatus, h1, h2]
  · intro env t c
    have hde : ∀ d : deployment,
        deployFunction d { env with tokenResult := t, createStatusResult := c }
          = deployFunction d env := fun _ => rfl
    constructor
    · simp only [Handle, hde]
      cases hev : (getEvent env.event).2 with
      | some e => rfl
      | none =>
        cases hbr : env.builderResponse with
        | error err => rfl
        | ok body =>
          by_cases hrepo : env.repositoryURL.length = 0
          · simp [hrepo]
          · by_cases hpush : env.pushRepositoryURL.length = 0
            · simp [hrepo, hpush]
            · by_cases hval : validImage (trimSpace body)
              case neg => simp [hrepo, hpush, hval]
              case pos =>
                by_cases himg : (trimSpace body).length > 0
                case neg => simp [hrepo, hpush, hval, himg]
                case pos =>
                  simp only [hrepo, hpush, hval, himg, if_false, if_true,
                    Bool.not_true, Bool.false_eq_true, if_neg, if_pos]
                  split <;> rfl
    · simp only [Handle, hde]
      cases hev : (getEvent env.event).2 with
      | some e => rfl
      | none =>
        cases hbr : env.builderResponse with
        | error err =>
          simp [List.filter_append, reportStatus_filter_deploy, isDeployEffect]
        | ok body =>
          by_cases hrepo : env.repositoryURL.length = 0
          · simp [hrepo]
          · by_cases hpush : env.pushRepositoryURL.length = 0
            · simp [hrepo, hpush]
            · by_cases hval : validImage (trimSpace body)
              case neg =>
                simp [hrepo, hpush, hval, reportStatus_filter_deploy]
              case pos =>
                by_cases himg : (trimSpace body).length > 0
                case neg =>
                  simp [hrepo, hpush, hval, himg, List.filter_append,
                    reportStatus_filter_deploy, isDeployEffect]
                case pos =>
                  simp only [hrepo, hpush, hval, himg, if_false, if_true,
                    Bool.not_true, Bool.false_eq_true, if_neg, if_pos]
                  split <;>
                    simp [List.filter_append, reportStatus_filter_deploy,
                      isDeployEffect]

/-- `envC3` with a successfully validating builder response and a failing
token mint. -/
def envC8 : HandleEnv :=
  { envC3 with builderResponse := .ok "reg.local/alex/fn",
               tokenResult := .error "bad key" }

/-- C8, witness: a concrete mint failure is logged and swallowed by
`reportStatus`, and flipping the token outcome leaves `Handle`'s result
unchanged. -/
theorem claimC8_witness :
    envC8.reportEnabled = true ∧ envC8.tokenResult = .error "bad key" ∧
    reportStatus envC8 "success" "desc" "DEPLOY" (getEvent envC8.event).1 =
      [.logLine "failed to report status, error: bad key"] ∧
    (Handle { envC3 with tokenResult := .error "bad key",
                         createStatusResult := envC3.createStatusResult }).2
      = (Handle envC3).2 := by
  refine ⟨rfl, rfl, ?_, ?_⟩
  · exact claimC8.1 envC8 "success" "desc" "DEPLOY" (getEvent envC8.event).1
      "bad key" rfl rfl
  · exact (claimC8.2 envC3 (.error "bad key") envC3.createStatusResult).1

end OFC
